import Mathlib

/-!
Verification development for the ai-knowledge-base repository.

The Python sources are shallowly embedded as Lean definitions:
strings are Lean `String`s (character lists), Python dictionaries become
structures or association lists, floating-point arithmetic is modelled with
`ℚ` (and `ℝ` where a square root is required), and fallible operations
return `Option`.  Each claim about the program is stated and settled as a
theorem over these definitions.
-/

namespace AIKB

/-! ## Python string primitives

Python's `str.lower` / `str.upper` are modelled per character with
`Char.toLower` / `Char.toUpper` (ASCII case mapping; the corpus keys are
ASCII).  `str.strip()` removes leading and trailing whitespace characters.
-/

/-- Whitespace characters recognised by Python's `str.strip()` (ASCII part). -/
def pyIsSpace (c : Char) : Bool :=
  [' ', '\t', '\n', '\r', '\x0b', '\x0c'].contains c

/-- Drop leading and trailing whitespace from a character list. -/
def pyStripChars (l : List Char) : List Char :=
  ((l.dropWhile pyIsSpace).reverse.dropWhile pyIsSpace).reverse

/-- Python `str.strip()`. -/
def pyStrip (s : String) : String :=
  String.mk (pyStripChars s.data)

/-- Python `str.lower()` (per-character ASCII case mapping). -/
def pyLower (s : String) : String :=
  String.mk (s.data.map Char.toLower)

/-- Python `str.upper()` (per-character ASCII case mapping). -/
def pyUpper (s : String) : String :=
  String.mk (s.data.map Char.toUpper)

/-! ## Message records and the deduplicating merger (`add_mbox.py`)

A parsed email dictionary (see `parse_mbox.parse_mbox_file`) has fields
subject, date, from, content, links, categories, and — once enrichment has
run — summary.  An absent `summary` key is `none`.
-/

structure Email where
  subject : String
  date : String
  sender : String
  content : String
  links : List String
  categories : List String
  summary : Option String := none
deriving DecidableEq

/-- Embeds `add_mbox.generate_email_hash`: the dedup key is
`f"{subject}{date}".lower().strip()`.  The MD5 digest taken of this key in
the source is modelled by the key itself (the digest is injective on the
keys up to MD5 collisions, and all membership tests in the source compare
digests of such keys). -/
def generate_email_hash (e : Email) : String :=
  pyStrip (pyLower (e.subject ++ e.date))

/-- Embeds `add_mbox.get_existing_hashes`: the membership set of fingerprints
of all existing emails (the Python `set` is modelled as a list; only
membership is ever used). -/
def get_existing_hashes (emails : List Email) : List String :=
  emails.map generate_email_hash

/-- Embeds the summary assignment of `add_mbox.main` (lines 207-212): a new
email gets `summary = generate_summary(email)` when the capability returns
text, and `summary = ''` when it fails (`None`) or returns an empty string. -/
def applySummary (sz : Email → Option String) (e : Email) : Email :=
  { e with summary := some ((sz e).getD "") }

/-- Embeds the duplicate-checking loop of `add_mbox.main` (lines 193-200):
walk the new emails in order, discard any whose fingerprint is already in
the membership set, and add each survivor's fingerprint to the set so that
within-batch duplicates are also caught. -/
def dedupNew : List String → List Email → List Email
  | _, [] => []
  | hashes, e :: rest =>
    if generate_email_hash e ∈ hashes then dedupNew hashes rest
    else e :: dedupNew (generate_email_hash e :: hashes) rest

/-- Embeds one merge step of `add_mbox.main`: survivors of the duplicate
check receive a summary and are appended (in order) to the existing corpus. -/
def mergeBatch (sz : Email → Option String) (existing news : List Email) : List Email :=
  existing ++ (dedupNew (get_existing_hashes existing) news).map (applySummary sz)

/-- Two concrete messages that differ only by letter case and surrounding
whitespace, used to exercise the dedup theorem. -/
def sampleEmailA : Email :=
  { subject := "Hello World", date := "Mon, 1 Jan 2024", sender := "a@x",
    content := "body one", links := [], categories := ["General AI"] }

/-- Case/space variant of `sampleEmailA` with the same fingerprint. -/
def sampleEmailB : Email :=
  { subject := "  HELLO world", date := "MON, 1 JAN 2024  ", sender := "b@y",
    content := "body two", links := [], categories := ["General AI"] }

/-! ## Rule-based classifier (`parse_mbox.categorize_email`)

The source tests each trigger with Python's `word in text` — plain substring
containment — against the lowercased concatenation `subject + " " + content`,
appending the category labels in the fixed order of the rule table and
falling back to the single sentinel label `'General AI'` when nothing
matched.  The sequence of `if any(word in text ...)` statements is embedded
as an ordered rule table traversed by `List.filter`.
-/

/-- The ordered rule table of `parse_mbox.categorize_email` (lines 94-123):
each entry is a category label together with its trigger keywords/phrases. -/
def categoryRules : List (String × List String) :=
  [("Claude & Anthropic", ["claude", "anthropic", "claude code"]),
   ("OpenAI & GPT", ["openai", "gpt", "chatgpt", "codex", "o1", "gpt-5"]),
   ("Google & Gemini", ["gemini", "google", "deepmind"]),
   ("AI Coding IDEs", ["cursor", "vscode", "ide", "editor"]),
   ("Vibe Coding", ["vibe coding", "vibe-coding", "vibecoding"]),
   ("Prompt Engineering", ["prompt", "prompting", "prompt engineering"]),
   ("AI Agents", ["agent", "agents", "agentic"]),
   ("MCP (Model Context Protocol)", ["mcp", "model context protocol"]),
   ("No-Code/Low-Code AI Builders", ["replit", "bolt", "lovable", "v0", "builder"]),
   ("Physical AI & Robotics", ["robot", "humanoid", "physical ai"]),
   ("AI Visual Tools", ["video", "image", "visual", "design"]),
   ("Learning Resources", ["course", "tutorial", "learn", "training", "masterclass"]),
   ("AI for Business", ["saas", "startup", "business", "launch"]),
   ("LLM & Models", ["llm", "model", "parameter", "fine-tuning"]),
   ("AI Hardware & Compute", ["nvidia", "hardware", "compute"])]

/-- Python's `word in text` substring test on strings. -/
def pySubstring (w text : String) : Prop := w.data <:+: text.data

instance (w text : String) : Decidable (pySubstring w text) :=
  inferInstanceAs (Decidable (_ <:+: _))

/-- Embeds one `any(word in text for word in [...])` test of
`parse_mbox.categorize_email`. -/
def ruleMatches (text : String) (kws : List String) : Bool :=
  kws.any (fun w => decide (pySubstring w text))

/-- Embeds `parse_mbox.categorize_email`: lowercase `subject + " " + content`,
collect the labels of all matching rules in table order, and fall back to
`['General AI']` when no rule matched. -/
def categorize_email (subject content : String) : List String :=
  let text := pyLower (subject ++ " " ++ content)
  let cats := (categoryRules.filter (fun r => ruleMatches text r.2)).map (fun r => r.1)
  if cats.isEmpty then ["General AI"] else cats

/-- Word-constituent characters of a regex `\w` class. -/
def isWordChar (c : Char) : Bool := c.isAlphanum || c = '_'

/-- Formalisation of the spec's phrase "matches as a whole-word substring"
(spec section 4.2), for comparison against the code's plain substring test:
the keyword occurs at some position whose neighbouring characters (if any)
are not word characters. -/
def wholeWordOccurs (w t : List Char) : Bool :=
  (List.range (t.length + 1)).any (fun i =>
    decide ((t.drop i).take w.length = w) &&
    (decide (i = 0) || !isWordChar (t.getD (i - 1) ' ')) &&
    (decide (i + w.length = t.length) || !isWordChar (t.getD (i + w.length) ' ')))

/-! ## Python rounding

Python's built-in `round` rounds half to even (banker's rounding); the
float arithmetic of the source is modelled over `ℚ`.
-/

/-- Python `round(q)` on a rational value: nearest integer, ties to even. -/
def pyRoundQ (q : ℚ) : ℤ :=
  if q - ⌊q⌋ < 1/2 then ⌊q⌋
  else if q - ⌊q⌋ > 1/2 then ⌊q⌋ + 1
  else if ⌊q⌋ % 2 = 0 then ⌊q⌋ else ⌊q⌋ + 1

/-- Python `round(q, 1)`: round to one decimal digit. -/
def pyRound1 (q : ℚ) : ℚ := (pyRoundQ (q * 10) : ℚ) / 10

/-! ## Trending topics (`services/analytics.get_trending_topics`)

The per-category loop (lines 122-138) computes a growth percentage from the
recent-window and previous-window counts and classifies a trend direction.
The surrounding SQL aggregation supplies the two `{category: count}` maps,
modelled as association lists; `previous.get(category, 0)` is a lookup with
default 0.  The final sort by growth and `[:limit]` truncation (lines
141-142) reorder and truncate the entry list without changing any entry.
-/

structure TrendEntry where
  category : String
  recent_count : ℕ
  previous_count : ℕ
  growth_percent : ℚ
  trend : String
deriving DecidableEq

/-- Embeds the growth branch of `get_trending_topics` (lines 124-130):
relative growth in percent when the previous count is positive, 100 for a
new category, 0 when both counts are zero. -/
def trendGrowth (recent_count prev_count : ℕ) : ℚ :=
  if prev_count > 0 then (((recent_count : ℚ) - prev_count) / prev_count) * 100
  else if recent_count > 0 then 100
  else 0

/-- Embeds the trend classification of line 137:
`'up' if growth > 10 else ('down' if growth < -10 else 'stable')`. -/
def trendLabel (growth : ℚ) : String :=
  if growth > 10 then "up" else if growth < -10 then "down" else "stable"

/-- One entry appended by the loop (lines 132-138); `growth_percent` is the
stored `round(growth, 1)`, `trend` is classified from the unrounded growth. -/
def mkTrendEntry (category : String) (recent_count prev_count : ℕ) : TrendEntry :=
  { category := category, recent_count := recent_count, previous_count := prev_count,
    growth_percent := pyRound1 (trendGrowth recent_count prev_count),
    trend := trendLabel (trendGrowth recent_count prev_count) }

/-- Embeds the trends-list construction of `get_trending_topics`: one entry
per category of the recent window, previous-period count defaulted to 0. -/
def trendEntries (recent previous : List (String × ℕ)) : List TrendEntry :=
  recent.map (fun rc =>
    mkTrendEntry rc.1 rc.2
      (((previous.find? (fun p => p.1 == rc.1)).map (fun p => p.2)).getD 0))

/-! ## Quiz grading (`services/quiz.grade_quiz`)

Stored questions come from `get_quiz_for_lesson`; the submitted answer dict
`{str(question_id): answer}` is modelled as an association list looked up
with default `''`.  The source compares `user_answer.upper() ==
q['correct_answer'].upper()` — a case-insensitive comparison.
-/

structure QuizQuestion where
  id : ℕ
  question : String
  options : List String
  correct_answer : String
  explanation : String
deriving DecidableEq

structure QuizFeedback where
  question : String
  your_answer : String
  correct_answer : String
  is_correct : Bool
  explanation : String
deriving DecidableEq

structure QuizGrade where
  score : ℤ
  correct : ℕ
  total : ℕ
  passed : Bool
  feedback : List QuizFeedback
deriving DecidableEq

/-- Python `answers.get(str(q['id']), '')`. -/
def lookupAnswer (answers : List (String × String)) (key : String) : String :=
  ((answers.find? (fun p => p.1 == key)).map (fun p => p.2)).getD ""

/-- Embeds one iteration of the grading loop of `grade_quiz` (lines
162-175): look up the submitted answer, compare case-insensitively, and
build the feedback row. -/
def gradeOne (answers : List (String × String)) (q : QuizQuestion) : QuizFeedback :=
  let ua := lookupAnswer answers (toString q.id)
  { question := q.question, your_answer := ua, correct_answer := q.correct_answer,
    is_correct := pyUpper ua == pyUpper q.correct_answer,
    explanation := q.explanation }

/-- Embeds `services/quiz.grade_quiz` (lines 146-185): `none` models the
`{'error': ...}` return for a lesson without questions; otherwise the score
is `round(correct/total*100)` and `passed` is `score >= 70`. -/
def grade_quiz (questions : List QuizQuestion) (answers : List (String × String)) :
    Option QuizGrade :=
  if questions.isEmpty then none
  else
    let feedback := questions.map (gradeOne answers)
    let correct := (feedback.filter (fun f => f.is_correct)).length
    let total := questions.length
    let score : ℤ := if total > 0 then pyRoundQ ((correct : ℚ) / total * 100) else 0
    some { score := score, correct := correct, total := total,
           passed := decide (score ≥ 70), feedback := feedback }

/-- Count of answers that exactly equal the stored correct answer — the
claim C7 wording ("an answer is correct iff it equals the stored correct
answer"), for comparison with the code's case-insensitive comparison. -/
def exactCorrectCount (questions : List QuizQuestion)
    (answers : List (String × String)) : ℕ :=
  (questions.filter
    (fun q => lookupAnswer answers (toString q.id) == q.correct_answer)).length

/-- Question used by the C7 counterexample (correct answer "A"). -/
def caseQuizQ : QuizQuestion :=
  { id := 1, question := "q", options := ["A. x", "B. y"],
    correct_answer := "A", explanation := "" }

/-- The three stored questions of the C7 scenario (correct answers A, B, C). -/
def demo3Questions : List QuizQuestion :=
  [{ id := 1, question := "q1", options := ["A", "B", "C", "D"],
     correct_answer := "A", explanation := "" },
   { id := 2, question := "q2", options := ["A", "B", "C", "D"],
     correct_answer := "B", explanation := "" },
   { id := 3, question := "q3", options := ["A", "B", "C", "D"],
     correct_answer := "C", explanation := "" }]

/-- The submitted answers {A, B, D} of the C7 scenario. -/
def demo3Answers : List (String × String) := [("1", "A"), ("2", "B"), ("3", "D")]

/-! ## Hybrid search (`services/search.hybrid_search`)

`semantic_search` and `keyword_search` results are row dictionaries with an
`id` and a `similarity` (a number for semantic hits, `None` for keyword
hits), modelled as `SearchResult` records; the database- and network-bound
searches themselves are inputs to the merge.  `hybrid_search` walks the
semantic results then the keyword results with a `seen_ids` set, tags each
kept entry with a `match_type`, overwrites keyword-only similarities with
`0.0`, and returns `merged[:limit]`.
-/

structure SearchResult where
  id : ℤ
  similarity : Option ℚ := none
  match_type : Option String := none
deriving DecidableEq

/-- Embeds the first merge loop of `hybrid_search` (lines 29-33): keep each
semantic result whose id is unseen, tagging it `match_type = 'semantic'`;
returns the kept entries together with the final seen-id set. -/
def mergeSemantic (seen : List ℤ) : List SearchResult → List SearchResult × List ℤ
  | [] => ([], seen)
  | r :: rest =>
    if r.id ∈ seen then mergeSemantic seen rest
    else
      let p := mergeSemantic (r.id :: seen) rest
      ({ r with match_type := some "semantic" } :: p.1, p.2)

/-- Embeds the second merge loop of `hybrid_search` (lines 35-40): keep each
keyword result whose id is still unseen, tagging it `match_type = 'keyword'`
and overwriting its similarity with `0.0`. -/
def mergeKeyword (seen : List ℤ) : List SearchResult → List SearchResult
  | [] => []
  | r :: rest =>
    if r.id ∈ seen then mergeKeyword seen rest
    else { r with match_type := some "keyword", similarity := some 0 } ::
      mergeKeyword (r.id :: seen) rest

/-- The full merged list built by `hybrid_search` before the cap. -/
def mergedResults (semantic keyword : List SearchResult) : List SearchResult :=
  (mergeSemantic [] semantic).1 ++ mergeKeyword (mergeSemantic [] semantic).2 keyword

/-- Embeds `services/search.hybrid_search` (lines 14-42): the merged list
capped to `limit` entries (`return merged[:limit]`). -/
def hybrid_search (semantic keyword : List SearchResult) (limit : ℕ) :
    List SearchResult :=
  (mergedResults semantic keyword).take limit

/-- Concrete semantic result list for the C6 witness. -/
def semDemo : List SearchResult := [{ id := 1, similarity := some 1 }]

/-- Concrete keyword result list for the C6 witness. -/
def kwDemo : List SearchResult := [{ id := 1 }, { id := 2 }]

/-! ## Enrichment gap-fill (`generate_summaries.main`)

The pass walks the corpus; `if email.get('summary'):` skips a message iff
its summary key is present and non-empty (Python truthiness), otherwise the
summarization capability is invoked and its result — or `''` on failure —
is stored.  The capability is the black-box input `sz`; `sz e = none`
models a failed call.
-/

/-- Python truthiness of `email.get('summary')`: present and non-empty. -/
def hasSummary (e : Email) : Bool :=
  match e.summary with
  | some s => !s.isEmpty
  | none => false

/-- Embeds one loop iteration of `generate_summaries.main` (lines 53-64):
skip a message with a truthy summary, otherwise store the capability result
(empty string on failure, exactly as `applySummary`). -/
def gsStep (sz : Email → Option String) (e : Email) : Email :=
  if hasSummary e then e else applySummary sz e

/-- Embeds a whole enrichment pass of `generate_summaries.main`: every
message of the corpus is processed independently, in order. -/
def generate_summaries_pass (sz : Email → Option String) (emails : List Email) :
    List Email :=
  emails.map (gsStep sz)

/-- A message whose previous summarization attempt failed (empty-string
summary), used by the C8 witness. -/
def gapEmail : Email :=
  { subject := "s", date := "d", sender := "f", content := "c",
    links := [], categories := ["General AI"], summary := some "" }

/-! ## Link extraction (`parse_mbox.extract_links`)

The source scans the text with the regex `https?://[^\s<>"\')\]>]+`
(leftmost, non-overlapping, greedy matches), right-strips the punctuation
`.,;:!?` from each match, keeps matches longer than 10 characters, and
returns `list(set(...))`.  The scanner is embedded as a character-list
walker with a fuel argument equal to the text length (each step consumes at
least one character), `str.rstrip` as reverse/dropWhile/reverse, and the
set conversion as `dedup` (only membership and uniqueness of the result are
specified; Python's set order is arbitrary).  Texts are character lists
here; `\s` is modelled by its ASCII whitespace characters.
-/

/-- The punctuation stripped from the end of a matched URL. -/
def urlStripChars : List Char := ['.', ',', ';', ':', '!', '?']

/-- Python `url.rstrip('.,;:!?')`. -/
def pyRstripPunct (l : List Char) : List Char :=
  (l.reverse.dropWhile (fun c => urlStripChars.contains c)).reverse

/-- Characters matched by the regex class `[^\s<>"\')\]>]`. -/
def isUrlChar (c : Char) : Bool :=
  !(pyIsSpace c || ['<', '>', '"', '\'', ')', ']'].contains c)

/-- The characters of the scheme `http://`. -/
def schemeHttp : List Char := "http://".data

/-- The characters of the scheme `https://`. -/
def schemeHttps : List Char := "https://".data

/-- Regex scanner: at each position try `https://` then `http://` followed
by a greedy non-empty run of URL characters; on a match, emit it and resume
after it, otherwise advance one character.  The fuel argument only bounds
the recursion and is in excess whenever it is at least the text length. -/
def findUrlsAux : ℕ → List Char → List (List Char)
  | 0, _ => []
  | _ + 1, [] => []
  | fuel + 1, c :: rest =>
    if schemeHttps.isPrefixOf (c :: rest) then
      if (((c :: rest).drop 8).takeWhile isUrlChar).isEmpty then
        findUrlsAux fuel rest
      else
        (schemeHttps ++ ((c :: rest).drop 8).takeWhile isUrlChar) ::
          findUrlsAux fuel
            (((c :: rest).drop 8).drop
              (((c :: rest).drop 8).takeWhile isUrlChar).length)
    else if schemeHttp.isPrefixOf (c :: rest) then
      if (((c :: rest).drop 7).takeWhile isUrlChar).isEmpty then
        findUrlsAux fuel rest
      else
        (schemeHttp ++ ((c :: rest).drop 7).takeWhile isUrlChar) ::
          findUrlsAux fuel
            (((c :: rest).drop 7).drop
              (((c :: rest).drop 7).takeWhile isUrlChar).length)
    else findUrlsAux fuel rest

/-- Embeds `re.findall(r'https?://[^\s<>"\')\]>]+', text)`. -/
def findUrls (l : List Char) : List (List Char) := findUrlsAux l.length l

/-- Embeds `parse_mbox.extract_links` (lines 77-86): find the regex matches,
right-strip trailing punctuation, keep non-empty results longer than 10
characters, and de-duplicate. -/
def extract_links (text : List Char) : List (List Char) :=
  (((findUrls text).map pyRstripPunct).filter
    (fun u => !u.isEmpty && decide (u.length > 10))).dedup

/-! ## Cosine similarity (`services/embeddings.cosine_similarity`)

Embedding vectors are float lists; they are modelled as real-number lists
so that the square root `** 0.5` of the magnitude is `Real.sqrt`.  Absent
embeddings (`None` arguments) are `none`.  Python's `zip` truncates to the
shorter list, as does `List.zipWith`.
-/

/-- Embeds `sum(x * y for x, y in zip(a, b))`. -/
def dotList (a b : List ℝ) : ℝ := (List.zipWith (fun x y => x * y) a b).sum

/-- Embeds `sum(x * x for x in a) ** 0.5`. -/
noncomputable def magnitude (a : List ℝ) : ℝ :=
  Real.sqrt ((a.map (fun x => x * x)).sum)

/-- Embeds `services/embeddings.cosine_similarity` (lines 95-107): 0.0 when
either argument is `None` or either computed magnitude is zero, otherwise
the dot product over the product of the magnitudes. -/
noncomputable def cosine_similarity (a b : Option (List ℝ)) : ℝ :=
  match a, b with
  | none, _ => 0
  | some _, none => 0
  | some la, some lb =>
    if magnitude la = 0 ∨ magnitude lb = 0 then 0
    else dotList la lb / (magnitude la * magnitude lb)

/-! ## Lemmas and claim theorems -/

lemma hash_applySummary (sz : Email → Option String) (e : Email) :
    generate_email_hash (applySummary sz e) = generate_email_hash e := rfl

lemma dedupNew_key_not_mem :
    ∀ (l : List Email) (hs : List String) (e : Email),
      e ∈ dedupNew hs l → generate_email_hash e ∉ hs := by
  intro l
  induction l with
  | nil => intro hs e h; simp [dedupNew] at h
  | cons a rest ih =>
    intro hs e h
    by_cases hc : generate_email_hash a ∈ hs
    · rw [dedupNew, if_pos hc] at h
      exact ih hs e h
    · rw [dedupNew, if_neg hc] at h
      rcases List.mem_cons.mp h with he | he
      · subst he; exact hc
      · intro hmem
        exact ih _ e he (List.mem_cons_of_mem _ hmem)

lemma dedupNew_hashes_nodup :
    ∀ (l : List Email) (hs : List String),
      ((dedupNew hs l).map generate_email_hash).Nodup := by
  intro l
  induction l with
  | nil => intro hs; simp [dedupNew]
  | cons a rest ih =>
    intro hs
    by_cases hc : generate_email_hash a ∈ hs
    · rw [dedupNew, if_pos hc]; exact ih hs
    · rw [dedupNew, if_neg hc]
      refine List.nodup_cons.mpr ⟨?_, ih _⟩
      intro hmem
      rcases List.mem_map.mp hmem with ⟨e, he, hkey⟩
      exact dedupNew_key_not_mem rest _ e he (hkey ▸ List.mem_cons_self _ _)

lemma dedupNew_sublist :
    ∀ (l : List Email) (hs : List String), List.Sublist (dedupNew hs l) l := by
  intro l
  induction l with
  | nil => intro hs; simp [dedupNew]
  | cons a rest ih =>
    intro hs
    by_cases hc : generate_email_hash a ∈ hs
    · rw [dedupNew, if_pos hc]; exact (ih hs).cons a
    · rw [dedupNew, if_neg hc]; exact (ih _).cons₂ a

lemma dedupNew_covers :
    ∀ (l : List Email) (hs : List String) (e : Email), e ∈ l →
      generate_email_hash e ∈ hs ∨
        generate_email_hash e ∈ (dedupNew hs l).map generate_email_hash := by
  intro l
  induction l with
  | nil => intro hs e h; simp at h
  | cons a rest ih =>
    intro hs e hmem
    by_cases hc : generate_email_hash a ∈ hs
    · rw [dedupNew, if_pos hc]
      rcases List.mem_cons.mp hmem with he | he
      · subst he; exact Or.inl hc
      · exact ih hs e he
    · rw [dedupNew, if_neg hc]
      rcases List.mem_cons.mp hmem with he | he
      · subst he
        exact Or.inr (List.mem_map.mpr ⟨e, List.mem_cons_self _ _, rfl⟩)
      · rcases ih (generate_email_hash a :: hs) e he with h | h
        · rcases List.mem_cons.mp h with h' | h'
          · exact Or.inr (by
              rw [List.map_cons]
              exact h' ▸ List.mem_cons_self _ _)
          · exact Or.inl h'
        · exact Or.inr (by
            rw [List.map_cons]
            exact List.mem_cons_of_mem _ h)

lemma dedupNew_eq_nil :
    ∀ (l : List Email) (hs : List String),
      (∀ e ∈ l, generate_email_hash e ∈ hs) → dedupNew hs l = [] := by
  intro l
  induction l with
  | nil => intro hs _; rfl
  | cons a rest ih =>
    intro hs h
    rw [dedupNew, if_pos (h a (List.mem_cons_self _ _))]
    exact ih hs (fun e he => h e (List.mem_cons_of_mem _ he))

lemma get_existing_hashes_mergeBatch (sz : Email → Option String)
    (existing news : List Email) :
    get_existing_hashes (mergeBatch sz existing news) =
      get_existing_hashes existing ++
        (dedupNew (get_existing_hashes existing) news).map generate_email_hash := by
  simp [mergeBatch, get_existing_hashes, List.map_map, Function.comp_def,
    hash_applySummary]

/-- C1: for any two messages whose (subject, date) pairs are identical after
case/space normalization, merging both into an empty corpus yields exactly
one stored message; the fingerprint `lower(subject + date).strip()` stays
unique within the corpus across a merge; and a new message whose fingerprint
is already in the membership set is discarded without being inserted or
mutating the existing corpus. -/
theorem claim_C1_fingerprint_dedup :
    (∀ (sz : Email → Option String) (e1 e2 : Email),
        generate_email_hash e1 = generate_email_hash e2 →
        mergeBatch sz [] [e1, e2] = [applySummary sz e1]) ∧
    (∀ (sz : Email → Option String) (existing news : List Email),
        (get_existing_hashes existing).Nodup →
        (get_existing_hashes (mergeBatch sz existing news)).Nodup) ∧
    (∀ (sz : Email → Option String) (existing : List Email) (e : Email),
        generate_email_hash e ∈ get_existing_hashes existing →
        mergeBatch sz existing [e] = existing) := by
  refine ⟨?_, ?_, ?_⟩
  · intro sz e1 e2 h
    have h2 : dedupNew [] [e1, e2] = [e1] := by
      rw [dedupNew, if_neg (List.not_mem_nil _), dedupNew,
        if_pos (by simp [← h]), dedupNew]
    simp [mergeBatch, get_existing_hashes, h2]
  · intro sz existing news hnd
    rw [get_existing_hashes_mergeBatch]
    refine List.Nodup.append hnd (dedupNew_hashes_nodup news _) ?_
    intro x hx hx'
    rcases List.mem_map.mp hx' with ⟨e, he, hkey⟩
    exact dedupNew_key_not_mem news _ e he (hkey ▸ hx)
  · intro sz existing e hmem
    have h1 : dedupNew (get_existing_hashes existing) [e] = [] := by
      rw [dedupNew, if_pos hmem, dedupNew]
    simp [mergeBatch, h1]

theorem claim_C1_witness :
    mergeBatch (fun _ => (none : Option String)) [] [sampleEmailA, sampleEmailB] =
      [applySummary (fun _ => (none : Option String)) sampleEmailA] :=
  claim_C1_fingerprint_dedup.1 (fun _ => none) sampleEmailA sampleEmailB (by decide)

/-- C2: merge is idempotent — merging the identical batch a second time adds
zero messages and leaves the corpus exactly as after the first merge; and
the surviving (non-duplicate) new messages appear in the output corpus in
their input order (they form a sublist of the input batch appended after the
existing corpus). -/
theorem claim_C2_merge_idempotent :
    ∀ (sz : Email → Option String) (existing news : List Email),
      mergeBatch sz (mergeBatch sz existing news) news = mergeBatch sz existing news ∧
      ∃ survivors, List.Sublist survivors news ∧
        mergeBatch sz existing news = existing ++ survivors.map (applySummary sz) := by
  intro sz existing news
  constructor
  · have hall : ∀ e ∈ news,
        generate_email_hash e ∈ get_existing_hashes (mergeBatch sz existing news) := by
      intro e he
      rw [get_existing_hashes_mergeBatch]
      rcases dedupNew_covers news (get_existing_hashes existing) e he with h | h
      · exact List.mem_append_left _ h
      · exact List.mem_append_right _ h
    have hnil := dedupNew_eq_nil news _ hall
    rw [mergeBatch, hnil]
    simp
  · exact ⟨dedupNew (get_existing_hashes existing) news,
      dedupNew_sublist news _, rfl⟩

lemma categorize_email_eq (subject content : String) :
    categorize_email subject content =
      if (categoryRules.filter
            (fun r => ruleMatches (pyLower (subject ++ " " ++ content)) r.2)).isEmpty
      then ["General AI"]
      else (categoryRules.filter
            (fun r => ruleMatches (pyLower (subject ++ " " ++ content)) r.2)).map
              (fun r => r.1) := by
  simp only [categorize_email]
  cases h : categoryRules.filter
      (fun r => ruleMatches (pyLower (subject ++ " " ++ content)) r.2) with
  | nil => simp
  | cons a l => simp

lemma ruleMatches_eq_true_iff (text : String) (kws : List String) :
    ruleMatches text kws = true ↔ ∃ w ∈ kws, pySubstring w text := by
  simp [ruleMatches]

lemma fired_isEmpty_iff (text : String) :
    (categoryRules.filter (fun r => ruleMatches text r.2)).isEmpty = true ↔
      ∀ r ∈ categoryRules, ∀ w ∈ r.2, ¬ pySubstring w text := by
  rw [List.isEmpty_iff, List.filter_eq_nil_iff]
  constructor
  · intro h r hr w hw hsub
    exact h r hr (by
      rw [ruleMatches_eq_true_iff]
      exact ⟨w, hw, hsub⟩)
  · intro h r hr hm
    rcases (ruleMatches_eq_true_iff _ _).mp hm with ⟨w, hw, hsub⟩
    exact h r hr w hw hsub

/-- C3 counterexample: the claim requires whole-word matching, but the code
uses plain substring containment.  The subject "magenta" contains the
trigger "agent" of the label "AI Agents" only as an interior substring,
never as a whole word, yet the label is assigned. -/
theorem claim_C3_counterexample :
    "AI Agents" ∈ categorize_email "magenta" "" ∧
    (∀ w ∈ ["agent", "agents", "agentic"],
       wholeWordOccurs w.data (pyLower ("magenta" ++ " " ++ "")).data = false) := by
  constructor
  · decide
  · decide

/-- C3 (amended: the trigger match is plain substring containment, not
whole-word): a category label is included in the classifier's result iff
some trigger keyword of its rule is a substring of the lowercased
concatenation of subject and body, or the label is the sentinel
"General AI" and no rule matched at all. -/
theorem claim_C3_rule_classifier :
    ∀ (subject content label : String),
      label ∈ categorize_email subject content ↔
        ((∃ kws, (label, kws) ∈ categoryRules ∧
            ∃ w ∈ kws, pySubstring w (pyLower (subject ++ " " ++ content))) ∨
          (label = "General AI" ∧
            ∀ r ∈ categoryRules, ∀ w ∈ r.2,
              ¬ pySubstring w (pyLower (subject ++ " " ++ content)))) := by
  intro subject content label
  rw [categorize_email_eq]
  by_cases hf :
      (categoryRules.filter
        (fun r => ruleMatches (pyLower (subject ++ " " ++ content)) r.2)).isEmpty = true
  · rw [if_pos hf, List.mem_singleton]
    have hnone := (fired_isEmpty_iff (pyLower (subject ++ " " ++ content))).mp hf
    constructor
    · intro h
      exact Or.inr ⟨h, hnone⟩
    · rintro (⟨kws, hmem, w, hw, hsub⟩ | ⟨hl, _⟩)
      · exact absurd hsub (hnone _ hmem w hw)
      · exact hl
  · rw [if_neg hf]
    constructor
    · intro h
      rcases List.mem_map.mp h with ⟨r, hr, hl⟩
      rcases (ruleMatches_eq_true_iff _ _).mp (List.mem_filter.mp hr).2 with ⟨w, hw, hsub⟩
      refine Or.inl ⟨r.2, ?_, w, hw, hsub⟩
      rw [← hl]
      simpa using (List.mem_filter.mp hr).1
    · rintro (⟨kws, hmem, w, hw, hsub⟩ | ⟨_, hnone⟩)
      · exact List.mem_map.mpr ⟨(label, kws),
          List.mem_filter.mpr ⟨hmem, (ruleMatches_eq_true_iff _ _).mpr ⟨w, hw, hsub⟩⟩, rfl⟩
      · exact absurd ((fired_isEmpty_iff _).mpr hnone) (by simpa using hf)

theorem claim_C3_witness :
    "OpenAI & GPT" ∈ categorize_email "ChatGPT tips" "" ↔
      ((∃ kws, ("OpenAI & GPT", kws) ∈ categoryRules ∧
          ∃ w ∈ kws, pySubstring w (pyLower ("ChatGPT tips" ++ " " ++ ""))) ∨
        ("OpenAI & GPT" = "General AI" ∧
          ∀ r ∈ categoryRules, ∀ w ∈ r.2,
            ¬ pySubstring w (pyLower ("ChatGPT tips" ++ " " ++ "")))) :=
  claim_C3_rule_classifier "ChatGPT tips" "" "OpenAI & GPT"

/-- C4 counterexample: on an email where no rule matched, the code assigns
the sentinel label "General AI", not the claimed label "General". -/
theorem claim_C4_counterexample :
    categorize_email "" "" = ["General AI"] ∧
    "General" ∉ categorize_email "" "" ∧
    (∀ r ∈ categoryRules, ruleMatches (pyLower ("" ++ " " ++ "")) r.2 = false) := by
  refine ⟨by decide, by decide, by decide⟩

/-- C4 (amended: the sentinel label is "General AI", not "General"): the
classifier's output list is always non-empty, and the sentinel "General AI"
label is assigned exactly when no rule matched. -/
theorem claim_C4_category_nonempty :
    ∀ (subject content : String),
      categorize_email subject content ≠ [] ∧
      ("General AI" ∈ categorize_email subject content ↔
        ∀ r ∈ categoryRules, ∀ w ∈ r.2,
          ¬ pySubstring w (pyLower (subject ++ " " ++ content))) := by
  intro subject content
  have hgen : ∀ r ∈ categoryRules, r.1 ≠ "General AI" := by decide
  rw [categorize_email_eq]
  by_cases hf :
      (categoryRules.filter
        (fun r => ruleMatches (pyLower (subject ++ " " ++ content)) r.2)).isEmpty = true
  · rw [if_pos hf]
    refine ⟨by simp, ?_⟩
    rw [List.mem_singleton]
    exact ⟨fun _ => (fired_isEmpty_iff _).mp hf, fun _ => rfl⟩
  · rw [if_neg hf]
    constructor
    · intro hmap
      rw [List.map_eq_nil_iff] at hmap
      exact hf (List.isEmpty_iff.mpr hmap)
    · constructor
      · intro h
        rcases List.mem_map.mp h with ⟨r, hr, hl⟩
        exact absurd hl (hgen r (by simpa using (List.mem_filter.mp hr).1))
      · intro hnone
        exact absurd ((fired_isEmpty_iff _).mpr hnone) (by simpa using hf)

theorem claim_C4_witness :
    categorize_email "nvidia hardware news" "" ≠ [] :=
  (claim_C4_category_nonempty "nvidia hardware news" "").1

lemma pyRoundQ_intCast (n : ℤ) : pyRoundQ (n : ℚ) = n := by
  rw [pyRoundQ, Int.floor_intCast]
  norm_num

lemma trendLabel_cases (g : ℚ) :
    (trendLabel g = "up" ↔ g > 10) ∧
    (trendLabel g = "down" ↔ g < -10) ∧
    (trendLabel g = "stable" ↔ ¬ g > 10 ∧ ¬ g < -10) := by
  unfold trendLabel
  by_cases h1 : g > 10
  · have h2 : ¬ g < -10 := by linarith
    simp [h1, h2]
  · by_cases h2 : g < -10
    · simp [h1, h2]
    · simp [h1, h2]

/-- C5: in the trending-topics computation, growth is
`((recent - previous)/previous)*100` when the previous count is positive,
100 when previous is zero and recent positive, 0 when both are zero; the
trend is "up" iff growth > 10, "down" iff growth < -10, else "stable"; every
entry of the trends list is determined by its counts this way; and the
boundary instances: 100→111 is "up", 100→109 is "stable", 0→5 is "up" with
growth 100. -/
theorem claim_C5_trending_topics :
    (∀ (c : String) (rc pc : ℕ),
      (pc > 0 → trendGrowth rc pc = (((rc : ℚ) - pc) / pc) * 100) ∧
      (pc = 0 → rc > 0 → trendGrowth rc pc = 100) ∧
      (pc = 0 → rc = 0 → trendGrowth rc pc = 0) ∧
      ((mkTrendEntry c rc pc).trend = "up" ↔ trendGrowth rc pc > 10) ∧
      ((mkTrendEntry c rc pc).trend = "down" ↔ trendGrowth rc pc < -10) ∧
      ((mkTrendEntry c rc pc).trend = "stable" ↔
        ¬ trendGrowth rc pc > 10 ∧ ¬ trendGrowth rc pc < -10)) ∧
    (∀ recent previous e, e ∈ trendEntries recent previous →
      e = mkTrendEntry e.category e.recent_count e.previous_count) ∧
    ((mkTrendEntry "X" 111 100).trend = "up" ∧
     (mkTrendEntry "X" 109 100).trend = "stable" ∧
     (mkTrendEntry "X" 5 0).trend = "up" ∧
     trendGrowth 5 0 = 100) := by
  refine ⟨?_, ?_, ?_, ?_, ?_, ?_⟩
  · intro c rc pc
    refine ⟨?_, ?_, ?_, ?_, ?_, ?_⟩
    · intro h
      rw [trendGrowth, if_pos h]
    · intro h0 hr
      rw [trendGrowth, if_neg (by omega), if_pos hr]
    · intro h0 hr
      rw [trendGrowth, if_neg (by omega), if_neg (by omega)]
    · exact (trendLabel_cases (trendGrowth rc pc)).1
    · exact (trendLabel_cases (trendGrowth rc pc)).2.1
    · exact (trendLabel_cases (trendGrowth rc pc)).2.2
  · intro recent previous e he
    rcases List.mem_map.mp he with ⟨rc, _, rfl⟩
    rfl
  · have g1 : trendGrowth 111 100 = 11 := by
      rw [trendGrowth, if_pos (by norm_num)]
      norm_num
    show trendLabel (trendGrowth 111 100) = "up"
    rw [g1, trendLabel, if_pos (by norm_num)]
  · have g2 : trendGrowth 109 100 = 9 := by
      rw [trendGrowth, if_pos (by norm_num)]
      norm_num
    show trendLabel (trendGrowth 109 100) = "stable"
    rw [g2, trendLabel, if_neg (by norm_num), if_neg (by norm_num)]
  · have g3 : trendGrowth 5 0 = 100 := by
      rw [trendGrowth, if_neg (by norm_num), if_pos (by norm_num)]
    show trendLabel (trendGrowth 5 0) = "up"
    rw [g3, trendLabel, if_pos (by norm_num)]
  · rw [trendGrowth, if_neg (by norm_num), if_pos (by norm_num)]

theorem claim_C5_witness :
    trendGrowth 111 100 = ((((111 : ℕ) : ℚ) - ((100 : ℕ) : ℚ)) / ((100 : ℕ) : ℚ)) * 100 :=
  (claim_C5_trending_topics.1 "X" 111 100).1 (by norm_num)

lemma length_filter_map {α β : Type} (f : α → β) (p : β → Bool) (l : List α) :
    ((l.map f).filter p).length = (l.filter (fun a => p (f a))).length := by
  induction l with
  | nil => rfl
  | cons a t ih =>
    by_cases h : p (f a) <;> simp [h, ih]

lemma grade_quiz_spec (qs : List QuizQuestion) (ans : List (String × String))
    (hne : qs ≠ []) :
    ∃ g, grade_quiz qs ans = some g ∧
      g.total = qs.length ∧
      g.correct = (qs.filter (fun q =>
        pyUpper (lookupAnswer ans (toString q.id)) == pyUpper q.correct_answer)).length ∧
      g.score = pyRoundQ ((g.correct : ℚ) / qs.length * 100) ∧
      (g.passed = true ↔ g.score ≥ 70) := by
  have hne' : ¬ (qs.isEmpty = true) := by
    simpa [List.isEmpty_iff] using hne
  rw [grade_quiz, if_neg hne']
  refine ⟨_, rfl, rfl, ?_, ?_, ?_⟩
  · exact length_filter_map (gradeOne ans) (fun f => f.is_correct) qs
  · show (if qs.length > 0 then _ else _) = _
    rw [if_pos (List.length_pos.mpr hne)]
  · simp

/-- C7 counterexample: the claim says an answer is correct iff it equals the
stored correct answer, but the code compares after uppercasing both sides.
Submitting the lower-case answer "a" against stored "A" is graded correct
(score 100), while the claim's exact-equality reading yields 0 correct and
score round(0/1*100) = 0. -/
theorem claim_C7_counterexample :
    (grade_quiz [caseQuizQ] [("1", "a")]).map (fun g => g.score) = some 100 ∧
    exactCorrectCount [caseQuizQ] [("1", "a")] = 0 ∧
    pyRoundQ ((exactCorrectCount [caseQuizQ] [("1", "a")] : ℚ) / 1 * 100) = 0 := by
  refine ⟨?_, by decide, ?_⟩
  · obtain ⟨g, hg, _, hcor, hsc, _⟩ := grade_quiz_spec [caseQuizQ] [("1", "a")] (by decide)
    have hc1 : ([caseQuizQ].filter (fun q =>
        pyUpper (lookupAnswer [("1", "a")] (toString q.id)) ==
          pyUpper q.correct_answer)).length = 1 := by decide
    have hsc' : g.score = 100 := by
      rw [hsc, hcor, hc1]
      have h1 : (((1 : ℕ) : ℚ) / (([caseQuizQ] : List QuizQuestion).length : ℚ) * 100)
          = ((100 : ℤ) : ℚ) := by
        norm_num
      rw [h1, pyRoundQ_intCast]
    rw [hg]
    simp [hsc']
  · have h0 : exactCorrectCount [caseQuizQ] [("1", "a")] = 0 := by decide
    rw [h0]
    have h1 : (((0 : ℕ) : ℚ) / 1 * 100) = ((0 : ℤ) : ℚ) := by norm_num
    rw [h1, pyRoundQ_intCast]

/-- C7 (amended: an answer is graded correct iff it equals the stored
correct answer after uppercasing both sides): for a lesson with stored
questions, the score is `round(correct/total*100)` with ties to even and
`passed` holds iff score >= 70; in particular the scenario with correct
answers A, B, C and submission {A, B, D} scores round(2/3*100) = 67 and does
not pass. -/
theorem claim_C7_quiz_grading :
    (∀ (qs : List QuizQuestion) (ans : List (String × String)), qs ≠ [] →
      ∃ g, grade_quiz qs ans = some g ∧
        g.total = qs.length ∧
        g.correct = (qs.filter (fun q =>
          pyUpper (lookupAnswer ans (toString q.id)) ==
            pyUpper q.correct_answer)).length ∧
        g.score = pyRoundQ ((g.correct : ℚ) / qs.length * 100) ∧
        (g.passed = true ↔ g.score ≥ 70)) ∧
    ((grade_quiz demo3Questions demo3Answers).map (fun g => g.score) = some 67 ∧
     (grade_quiz demo3Questions demo3Answers).map (fun g => g.passed) = some false) := by
  refine ⟨grade_quiz_spec, ?_, ?_⟩
  all_goals
    obtain ⟨g, hg, _, hcor, hsc, hpass⟩ :=
      grade_quiz_spec demo3Questions demo3Answers (by decide)
  all_goals
    have hc2 : (demo3Questions.filter (fun q =>
        pyUpper (lookupAnswer demo3Answers (toString q.id)) ==
          pyUpper q.correct_answer)).length = 2 := by decide
  all_goals
    have hsc' : g.score = 67 := by
      rw [hsc, hcor, hc2]
      have h1 : (((2 : ℕ) : ℚ) / ((demo3Questions : List QuizQuestion).length : ℚ) * 100)
          = 200 / 3 := by
        rw [show (demo3Questions : List QuizQuestion).length = 3 from rfl]
        norm_num
      rw [h1, pyRoundQ]
      norm_num
  · rw [hg]
    simp [hsc']
  · have hp : g.passed = false := by
      rcases Bool.eq_false_or_eq_true g.passed with h | h
      · exfalso
        have := hpass.mp h
        rw [hsc'] at this
        norm_num at this
      · exact h
    rw [hg]
    simp [hp]

theorem claim_C7_witness :
    ∃ g, grade_quiz demo3Questions demo3Answers = some g ∧
      g.total = demo3Questions.length ∧
      g.correct = (demo3Questions.filter (fun q =>
        pyUpper (lookupAnswer demo3Answers (toString q.id)) ==
          pyUpper q.correct_answer)).length ∧
      g.score = pyRoundQ ((g.correct : ℚ) / demo3Questions.length * 100) ∧
      (g.passed = true ↔ g.score ≥ 70) :=
  claim_C7_quiz_grading.1 demo3Questions demo3Answers (by decide)

lemma mergeSemantic_fst_not_seen :
    ∀ (sem : List SearchResult) (seen : List ℤ) (r : SearchResult),
      r ∈ (mergeSemantic seen sem).1 → r.id ∉ seen := by
  intro sem
  induction sem with
  | nil => intro seen r h; simp [mergeSemantic] at h
  | cons a rest ih =>
    intro seen r h
    by_cases hc : a.id ∈ seen
    · rw [mergeSemantic, if_pos hc] at h
      exact ih seen r h
    · rw [mergeSemantic, if_neg hc] at h
      rcases List.mem_cons.mp h with he | he
      · subst he; exact hc
      · intro hmem
        exact ih _ r he (List.mem_cons_of_mem _ hmem)

lemma mergeSemantic_fst_from :
    ∀ (sem : List SearchResult) (seen : List ℤ) (r : SearchResult),
      r ∈ (mergeSemantic seen sem).1 →
        ∃ s ∈ sem, s.id = r.id ∧ s.similarity = r.similarity := by
  intro sem
  induction sem with
  | nil => intro seen r h; simp [mergeSemantic] at h
  | cons a rest ih =>
    intro seen r h
    by_cases hc : a.id ∈ seen
    · rw [mergeSemantic, if_pos hc] at h
      rcases ih seen r h with ⟨s, hs, hid, hsim⟩
      exact ⟨s, List.mem_cons_of_mem _ hs, hid, hsim⟩
    · rw [mergeSemantic, if_neg hc] at h
      rcases List.mem_cons.mp h with he | he
      · subst he
        exact ⟨a, List.mem_cons_self _ _, rfl, rfl⟩
      · rcases ih _ r he with ⟨s, hs, hid, hsim⟩
        exact ⟨s, List.mem_cons_of_mem _ hs, hid, hsim⟩

lemma mergeSemantic_fst_nodup :
    ∀ (sem : List SearchResult) (seen : List ℤ),
      ((mergeSemantic seen sem).1.map (fun r => r.id)).Nodup := by
  intro sem
  induction sem with
  | nil => intro seen; simp [mergeSemantic]
  | cons a rest ih =>
    intro seen
    by_cases hc : a.id ∈ seen
    · rw [mergeSemantic, if_pos hc]; exact ih seen
    · rw [mergeSemantic, if_neg hc]
      refine List.nodup_cons.mpr ⟨?_, ih _⟩
      intro hmem
      rcases List.mem_map.mp hmem with ⟨r, hr, hid⟩
      exact mergeSemantic_fst_not_seen rest _ r hr (hid ▸ List.mem_cons_self _ _)

lemma mergeSemantic_snd_mem :
    ∀ (sem : List SearchResult) (seen : List ℤ) (x : ℤ),
      x ∈ (mergeSemantic seen sem).2 ↔
        x ∈ seen ∨ x ∈ (mergeSemantic seen sem).1.map (fun r => r.id) := by
  intro sem
  induction sem with
  | nil => intro seen x; simp [mergeSemantic]
  | cons a rest ih =>
    intro seen x
    by_cases hc : a.id ∈ seen
    · rw [mergeSemantic, if_pos hc]
      exact ih seen x
    · rw [mergeSemantic, if_neg hc]
      simp only [List.map_cons, List.mem_cons]
      rw [ih (a.id :: seen) x, List.mem_cons]
      tauto

lemma mergeSemantic_input_ids :
    ∀ (sem : List SearchResult) (seen : List ℤ) (s : SearchResult),
      s ∈ sem → s.id ∈ (mergeSemantic seen sem).2 := by
  intro sem
  induction sem with
  | nil => intro seen s h; simp at h
  | cons a rest ih =>
    intro seen s hs
    by_cases hc : a.id ∈ seen
    · rw [mergeSemantic, if_pos hc]
      rcases List.mem_cons.mp hs with he | he
      · exact (mergeSemantic_snd_mem rest seen s.id).mpr
          (Or.inl (by rw [he]; exact hc))
      · exact ih seen s he
    · rw [mergeSemantic, if_neg hc]
      rcases List.mem_cons.mp hs with he | he
      · subst he
        exact (mergeSemantic_snd_mem rest _ s.id).mpr
          (Or.inl (List.mem_cons_self _ _))
      · exact ih _ s he

lemma mergeKeyword_mem :
    ∀ (kw : List SearchResult) (seen : List ℤ) (r : SearchResult),
      r ∈ mergeKeyword seen kw →
        r.id ∉ seen ∧ r.similarity = some 0 ∧ ∃ k ∈ kw, k.id = r.id := by
  intro kw
  induction kw with
  | nil => intro seen r h; simp [mergeKeyword] at h
  | cons a rest ih =>
    intro seen r h
    by_cases hc : a.id ∈ seen
    · rw [mergeKeyword, if_pos hc] at h
      rcases ih seen r h with ⟨h1, h2, k, hk, hid⟩
      exact ⟨h1, h2, k, List.mem_cons_of_mem _ hk, hid⟩
    · rw [mergeKeyword, if_neg hc] at h
      rcases List.mem_cons.mp h with he | he
      · subst he
        exact ⟨hc, rfl, a, List.mem_cons_self _ _, rfl⟩
      · rcases ih _ r he with ⟨h1, h2, k, hk, hid⟩
        exact ⟨fun hmem => h1 (List.mem_cons_of_mem _ hmem), h2,
          k, List.mem_cons_of_mem _ hk, hid⟩

lemma mergeKeyword_nodup :
    ∀ (kw : List SearchResult) (seen : List ℤ),
      ((mergeKeyword seen kw).map (fun r => r.id)).Nodup := by
  intro kw
  induction kw with
  | nil => intro seen; simp [mergeKeyword]
  | cons a rest ih =>
    intro seen
    by_cases hc : a.id ∈ seen
    · rw [mergeKeyword, if_pos hc]; exact ih seen
    · rw [mergeKeyword, if_neg hc]
      refine List.nodup_cons.mpr ⟨?_, ih _⟩
      intro hmem
      rcases List.mem_map.mp hmem with ⟨r, hr, hid⟩
      exact (mergeKeyword_mem rest _ r hr).1 (hid ▸ List.mem_cons_self _ _)

lemma mergedResults_ids_nodup (sem kw : List SearchResult) :
    ((mergedResults sem kw).map (fun r => r.id)).Nodup := by
  rw [mergedResults, List.map_append]
  refine List.Nodup.append (mergeSemantic_fst_nodup sem [])
    (mergeKeyword_nodup kw _) ?_
  intro x hx hx'
  rcases List.mem_map.mp hx' with ⟨r, hr, hid⟩
  have hseen : x ∈ (mergeSemantic [] sem).2 :=
    (mergeSemantic_snd_mem sem [] x).mpr (Or.inr hx)
  exact (mergeKeyword_mem kw _ r hr).1 (hid ▸ hseen)

lemma mergedResults_characterize (sem kw : List SearchResult) :
    ∀ e ∈ mergedResults sem kw,
      (∃ s ∈ sem, s.id = e.id ∧ e.similarity = s.similarity) ∨
      ((∀ s ∈ sem, s.id ≠ e.id) ∧ (∃ k ∈ kw, k.id = e.id) ∧
        e.similarity = some 0) := by
  intro e he
  rcases List.mem_append.mp he with h | h
  · rcases mergeSemantic_fst_from sem [] e h with ⟨s, hs, hid, hsim⟩
    exact Or.inl ⟨s, hs, hid, hsim.symm⟩
  · rcases mergeKeyword_mem kw _ e h with ⟨hnot, hsim, k, hk, hid⟩
    refine Or.inr ⟨?_, ⟨k, hk, hid⟩, hsim⟩
    intro s hs hse
    exact hnot (hse ▸ mergeSemantic_input_ids sem [] s hs)

/-- C6: hybrid search merges semantic and keyword results with semantic
priority on id collision — every returned entry either carries the
similarity of a semantic hit with its id, or is keyword-only (its id
appears in no semantic hit) and carries similarity 0.0; no id appears twice
in the merged list; the cap is applied after the merge (the returned list is
a prefix of the full merged list, of length at most the cap); and when all
semantic hits carry a non-null score, a returned entry whose id was also
returned by semantic search carries a non-null score. -/
theorem claim_C6_hybrid_search :
    ∀ (sem kw : List SearchResult) (limit : ℕ),
      ((hybrid_search sem kw limit).map (fun r => r.id)).Nodup ∧
      (hybrid_search sem kw limit).length ≤ limit ∧
      (hybrid_search sem kw limit) <+: mergedResults sem kw ∧
      (∀ e ∈ hybrid_search sem kw limit,
        (∃ s ∈ sem, s.id = e.id ∧ e.similarity = s.similarity) ∨
        ((∀ s ∈ sem, s.id ≠ e.id) ∧ (∃ k ∈ kw, k.id = e.id) ∧
          e.similarity = some 0)) ∧
      (∀ e ∈ hybrid_search sem kw limit,
        (∀ s ∈ sem, s.similarity ≠ none) → (∃ s ∈ sem, s.id = e.id) →
          e.similarity ≠ none) := by
  intro sem kw limit
  have hsub : ∀ e ∈ hybrid_search sem kw limit, e ∈ mergedResults sem kw := by
    intro e he
    exact List.mem_of_mem_take he
  refine ⟨?_, ?_, ?_, ?_, ?_⟩
  · rw [hybrid_search, List.map_take]
    exact List.Nodup.sublist (List.take_sublist _ _) (mergedResults_ids_nodup sem kw)
  · rw [hybrid_search]
    exact (List.length_take _ _).le.trans (Nat.min_le_left _ _)
  · exact List.take_prefix _ _
  · intro e he
    exact mergedResults_characterize sem kw e (hsub e he)
  · rintro e he hall ⟨s, hs, hid⟩
    rcases mergedResults_characterize sem kw e (hsub e he) with
      ⟨s', hs', _, hsim⟩ | ⟨hnone, _, _⟩
    · rw [hsim]
      exact hall s' hs'
    · exact absurd hid (hnone s hs)

theorem claim_C6_witness :
    ({ id := 1, similarity := some 1, match_type := some "semantic" } :
        SearchResult).similarity ≠ none :=
  (claim_C6_hybrid_search semDemo kwDemo 10).2.2.2.2
    { id := 1, similarity := some 1, match_type := some "semantic" }
    (by decide) (by decide)
    ⟨{ id := 1, similarity := some 1 }, by decide, by decide⟩

/-- C8: on an enrichment pass, a message whose summary is absent or the
empty string is (re-)selected for summarization; capability failure stores
the empty string as its summary; a message with a non-empty summary is
skipped unchanged; and the pass processes the remaining messages regardless
of what happens to any single message (one failure never aborts the batch). -/
theorem claim_C8_enrichment_gap_fill :
    ∀ (sz : Email → Option String) (e : Email),
      ((e.summary = none ∨ e.summary = some "") → gsStep sz e = applySummary sz e) ∧
      ((e.summary = none ∨ e.summary = some "") → sz e = none →
        (gsStep sz e).summary = some "") ∧
      (∀ s, e.summary = some s → s ≠ "" → gsStep sz e = e) ∧
      (∀ (pre post : List Email),
        generate_summaries_pass sz (pre ++ e :: post) =
          generate_summaries_pass sz pre ++
            gsStep sz e :: generate_summaries_pass sz post) := by
  intro sz e
  have hsel : (e.summary = none ∨ e.summary = some "") → hasSummary e = false := by
    rintro (h | h)
    · simp [hasSummary, h]
    · simp [hasSummary, h]
      decide
  refine ⟨?_, ?_, ?_, ?_⟩
  · intro h
    rw [gsStep, hsel h]
    simp
  · intro h hfail
    rw [gsStep, hsel h]
    simp [applySummary, hfail]
  · intro s hs hne
    have hemp : s.isEmpty = false := by
      rw [Bool.eq_false_iff]
      intro hc
      exact hne ((String.isEmpty_iff s).mp hc)
    have : hasSummary e = true := by
      simp [hasSummary, hs, hemp]
    rw [gsStep, this]
    simp
  · intro pre post
    simp [generate_summaries_pass]

theorem claim_C8_witness :
    (gsStep (fun _ => (none : Option String)) gapEmail).summary = some "" :=
  (claim_C8_enrichment_gap_fill (fun _ => none) gapEmail).2.1 (Or.inr rfl) rfl

lemma findUrlsAux_mem :
    ∀ (fuel : ℕ) (l u : List Char), u ∈ findUrlsAux fuel l →
      ∃ run, run ≠ [] ∧ (u = schemeHttps ++ run ∨ u = schemeHttp ++ run) := by
  intro fuel
  induction fuel with
  | zero => intro l u h; simp [findUrlsAux] at h
  | succ n ih =>
    intro l u h
    match l with
    | [] => simp [findUrlsAux] at h
    | c :: rest =>
      rw [findUrlsAux] at h
      by_cases h8 : schemeHttps.isPrefixOf (c :: rest)
      · rw [if_pos h8] at h
        by_cases hemp : (((c :: rest).drop 8).takeWhile isUrlChar).isEmpty
        · rw [if_pos hemp] at h
          exact ih rest u h
        · rw [if_neg hemp] at h
          rcases List.mem_cons.mp h with he | he
          · exact ⟨((c :: rest).drop 8).takeWhile isUrlChar,
              fun hc => hemp (by rw [hc]; rfl), Or.inl he⟩
          · exact ih _ u he
      · rw [if_neg h8] at h
        by_cases h7 : schemeHttp.isPrefixOf (c :: rest)
        · rw [if_pos h7] at h
          by_cases hemp : (((c :: rest).drop 7).takeWhile isUrlChar).isEmpty
          · rw [if_pos hemp] at h
            exact ih rest u h
          · rw [if_neg hemp] at h
            rcases List.mem_cons.mp h with he | he
            · exact ⟨((c :: rest).drop 7).takeWhile isUrlChar,
                fun hc => hemp (by rw [hc]; rfl), Or.inr he⟩
            · exact ih _ u he
        · rw [if_neg h7] at h
          exact ih rest u h

lemma pyRstripPunct_isPre (l : List Char) : List.IsPrefix (pyRstripPunct l) l := by
  rw [pyRstripPunct]
  have h := List.dropWhile_suffix (l := l.reverse) (p := fun c => urlStripChars.contains c)
  simpa using List.reverse_prefix.mpr h

lemma head_dropWhile_not (p : Char → Bool) :
    ∀ (l : List Char) (c : Char), (l.dropWhile p).head? = some c → p c = false := by
  intro l
  induction l with
  | nil => intro c h; simp at h
  | cons a t ih =>
    intro c h
    by_cases hp : p a = true
    · simp only [List.dropWhile, hp] at h
      exact ih c h
    · have hfa : p a = false := Bool.eq_false_iff.mpr hp
      simp only [List.dropWhile, hfa] at h
      simp at h
      rw [← h]
      exact hfa

lemma pyRstripPunct_getLast (l : List Char) (c : Char) :
    (pyRstripPunct l).getLast? = some c → urlStripChars.contains c = false := by
  rw [pyRstripPunct, List.getLast?_reverse]
  exact head_dropWhile_not _ _ c

/-- C9: the link extractor returns only strings that begin with `http://`
or `https://`, with trailing `.,;:!?` punctuation stripped (the last
character of a returned URL is never one of them); every URL whose stripped
form is at most 10 characters long is dropped; and the returned list
contains no duplicates. -/
theorem claim_C9_extract_links :
    ∀ (text : List Char),
      (∀ u ∈ extract_links text,
        (List.IsPrefix schemeHttp u ∨ List.IsPrefix schemeHttps u) ∧
        (∀ c, u.getLast? = some c → urlStripChars.contains c = false) ∧
        u.length > 10) ∧
      (extract_links text).Nodup := by
  intro text
  constructor
  · intro u hu
    have hu1 : u ∈ ((findUrls text).map pyRstripPunct).filter
        (fun u => !u.isEmpty && decide (u.length > 10)) := List.mem_dedup.mp hu
    have hu2 := List.mem_filter.mp hu1
    have hlen : u.length > 10 := by
      have hb := hu2.2
      simp only [Bool.and_eq_true, decide_eq_true_eq] at hb
      exact hb.2
    rcases List.mem_map.mp hu2.1 with ⟨w, hw, hwu⟩
    have hpre : List.IsPrefix u w := hwu ▸ pyRstripPunct_isPre w
    have hlast : ∀ c, u.getLast? = some c → urlStripChars.contains c = false :=
      fun c hc => pyRstripPunct_getLast w c (hwu ▸ hc)
    rcases findUrlsAux_mem _ _ w hw with ⟨run, _, hcase | hcase⟩
    · have hpw : List.IsPrefix schemeHttps w := ⟨run, hcase.symm⟩
      have hsch : List.IsPrefix schemeHttps u :=
        List.prefix_of_prefix_length_le hpw hpre (by
          have : schemeHttps.length = 8 := rfl
          omega)
      exact ⟨Or.inr hsch, hlast, hlen⟩
    · have hpw : List.IsPrefix schemeHttp w := ⟨run, hcase.symm⟩
      have hsch : List.IsPrefix schemeHttp u :=
        List.prefix_of_prefix_length_le hpw hpre (by
          have : schemeHttp.length = 7 := rfl
          omega)
      exact ⟨Or.inl hsch, hlast, hlen⟩
  · exact List.nodup_dedup _

theorem claim_C9_witness :
    (List.IsPrefix schemeHttp "https://example.com/page".data ∨
      List.IsPrefix schemeHttps "https://example.com/page".data) ∧
    (∀ c, ("https://example.com/page".data).getLast? = some c →
      urlStripChars.contains c = false) ∧
    ("https://example.com/page".data).length > 10 :=
  (claim_C9_extract_links "see https://example.com/page, then http://ab.".data).1
    "https://example.com/page".data (by decide)

/-- C10: the cosine-similarity function is total and never divides by zero:
it returns 0.0 whenever either argument is absent (`None`) or has zero
magnitude, and otherwise returns the dot product divided by the product of
the two magnitudes, whose denominator is then provably non-zero. -/
theorem claim_C10_cosine_similarity :
    ∀ (a b : Option (List ℝ)),
      ((a = none ∨ b = none) → cosine_similarity a b = 0) ∧
      (∀ la lb, a = some la → b = some lb →
        ((magnitude la = 0 ∨ magnitude lb = 0) → cosine_similarity a b = 0) ∧
        (magnitude la ≠ 0 → magnitude lb ≠ 0 →
          magnitude la * magnitude lb ≠ 0 ∧
          cosine_similarity a b = dotList la lb / (magnitude la * magnitude lb))) := by
  intro a b
  constructor
  · rintro (rfl | rfl)
    · rfl
    · cases a <;> rfl
  · intro la lb ha hb
    subst ha
    subst hb
    constructor
    · intro h
      simp only [cosine_similarity]
      rw [if_pos h]
    · intro h1 h2
      refine ⟨mul_ne_zero h1 h2, ?_⟩
      simp only [cosine_similarity]
      rw [if_neg (by tauto)]

theorem claim_C10_witness :
    magnitude [(1 : ℝ)] * magnitude [(1 : ℝ)] ≠ 0 ∧
    cosine_similarity (some [(1 : ℝ)]) (some [(1 : ℝ)]) =
      dotList [(1 : ℝ)] [(1 : ℝ)] / (magnitude [(1 : ℝ)] * magnitude [(1 : ℝ)]) := by
  have hm : magnitude [(1 : ℝ)] ≠ 0 := by
    have h1 : magnitude [(1 : ℝ)] = 1 := by
      simp [magnitude]
    rw [h1]
    exact one_ne_zero
  exact ((claim_C10_cosine_similarity (some [(1 : ℝ)]) (some [(1 : ℝ)])).2
    [(1 : ℝ)] [(1 : ℝ)] rfl rfl).2 hm hm

end AIKB
